import Mathlib

/-!
Verification of the longhorn-backup-repacker reconstruction engine
(`src/main.go`) via a shallow embedding.

Modelling conventions:
* A file's contents are a `List Nat` of byte values (`File`); byte offsets
  are naturals (negative `int64` offsets are outside the model).
* `time.Time` values are modelled as naturals; `Time.Before` is `<`.
* Go's 64-bit signed integer arithmetic is modelled on `Int` with an
  explicit two's-complement reduction `wrap64`.
* Filesystem access and the two compression libraries are external to the
  repository; they enter the model as an environment `Env`:
  `glob` (results of `filepath.Glob` per pattern), `read` (`os.ReadFile`),
  `dlz`/`dgz` (the lz4/gzip decoders), `wfail` (whether the n-th
  `Seek`+`Write` pair inside `writeBlockToBuffer` fails at the OS level)
  and `tfail` (whether the final `Truncate` call fails).  The Go source
  discards the error results of those `Seek`/`Write`/`Truncate` calls,
  which the embedding reproduces faithfully.
* Descriptor parsing (`json.Unmarshal`, `time.Parse`, `strconv.Atoi`) is
  abstracted: each discovered `*.cfg` file is represented by the outcome
  of that parsing pipeline, an `Except String Backup`.
-/

/-- A file's byte contents. -/
abbrev File : Type := List Nat

/-- `type Block struct` from src/main.go: absolute byte offset in the final
image plus the content-addressed checksum key. -/
structure Block where
  Offset : Nat
  Checksum : String
deriving DecidableEq

/-- `type Backup struct` from src/main.go. `Timestamp` models `time.Time`
as a natural (e.g. nanoseconds since the epoch); `Before` is `<`. -/
structure Backup where
  Identifier : String
  Timestamp : Nat
  Size : Int
  Compression : String
  Blocks : List Block
deriving DecidableEq

/-- `type VolumeBackup struct` from src/main.go. -/
structure VolumeBackup where
  Name : String
  BackupPath : String
  Backups : List Backup
deriving DecidableEq

/-- `type Superblock struct` from src/main.go (Go `int` fields, 64-bit). -/
structure Superblock where
  TotalBlocks : Int
  BlockSize : Int
deriving DecidableEq

/-- `type superblockRaw struct` from src/main.go: the seven little-endian
`uint32` fields read at offset 1024. -/
structure superblockRaw where
  SInodesCount : Nat
  SBlocksCount : Nat
  SRBlocksCount : Nat
  SFreeBlocksCount : Nat
  SFreeInodesCount : Nat
  SFirstDataBlock : Nat
  SLogBlockSize : Nat
deriving DecidableEq

/-- Two's-complement reduction of an `Int` to the Go 64-bit signed range,
used wherever Go `int`/`int64` arithmetic can overflow. -/
def wrap64 (x : Int) : Int := (x + 2 ^ 63) % 2 ^ 64 - 2 ^ 63

/-- The little-endian 32-bit value stored at bytes `i .. i+3` of a file
(missing bytes read as 0 only notionally; `parseSuperblockRaw` guards the
length before this is used). -/
def le32at (f : File) (i : Nat) : Nat :=
  f.getD i 0 + 256 * f.getD (i + 1) 0 + 65536 * f.getD (i + 2) 0 +
    16777216 * f.getD (i + 3) 0

/-- The `f.Seek(1024, 0)` plus `binary.Read(f, binary.LittleEndian, &raw)`
first half of `readSuperblock` (src/main.go lines 80-89): reading seven
`uint32` values requires bytes `1024 .. 1051`; a shorter file makes
`binary.Read` fail. -/
def parseSuperblockRaw (f : File) : Except String superblockRaw :=
  if f.length < 1024 + 28 then Except.error "unexpected EOF"
  else Except.ok
    { SInodesCount := le32at f 1024
      SBlocksCount := le32at f 1028
      SRBlocksCount := le32at f 1032
      SFreeBlocksCount := le32at f 1036
      SFreeInodesCount := le32at f 1040
      SFirstDataBlock := le32at f 1044
      SLogBlockSize := le32at f 1048 }

/-- `readSuperblock` (src/main.go lines 77-95).  `TotalBlocks` is
`int(raw.SBlocksCount)` (exact, a `uint32` fits in `int64`); `BlockSize`
is `int(1024 << raw.SLogBlockSize)`, a 64-bit shift that wraps. -/
def readSuperblock (f : File) : Except String Superblock :=
  match parseSuperblockRaw f with
  | Except.error e => Except.error e
  | Except.ok raw =>
    Except.ok
      { TotalBlocks := Int.ofNat raw.SBlocksCount
        BlockSize := wrap64 (1024 * 2 ^ raw.SLogBlockSize) }

/-- Positional overwrite: the semantics of a successful
`Seek(offset, io.SeekStart)` followed by `Write(blockData)` on a file.
Bytes `[off, off + data.length)` come from `data`; bytes below `off` keep
their old value; writing past the current end zero-fills the gap. -/
def overwrite (f : File) (off : Nat) (data : List Nat) : File :=
  (List.range (max f.length (off + data.length))).map fun i =>
    if off ≤ i ∧ i < off + data.length then data.getD (i - off) 0
    else f.getD i 0

/-- `writeBlockToBuffer` (src/main.go lines 177-180).  The Go function
discards the error results of `Seek` and `Write`; `wfail` says whether
that underlying seek/write pair failed, in which case no bytes land in the
file and — faithfully to the source — no error is reported to the caller. -/
def writeBlockToBuffer (blockData : List Nat) (offset : Nat)
    (fileDiscriptor : File) (wfail : Bool) : File :=
  if wfail then fileDiscriptor else overwrite fileDiscriptor offset blockData

/-- The effect of a successful `f.Truncate(n)`: shrink or zero-extend to
exactly `n` bytes. -/
def resizeFile (f : File) (n : Nat) : File :=
  f.take n ++ List.replicate (n - f.length) 0

/-- The `outfile_descriptor.Truncate(...)` call at src/main.go line 341.
Go's `Truncate` fails on a negative size, and may fail at the OS level
(`tfail`); in both cases the source discards the error and the file is
left as it was. -/
def truncateCall (f : File) (n : Int) (tfail : Bool) : File :=
  if tfail then f else if n < 0 then f else resizeFile f n.toNat

/-- Outcome of a run of the assembly/sizing code in `main`: normal
completion (`ok`), `os.Exit(1)` after an error message (`fatal`), or a
runtime panic (`panicked`).  Each carries the on-disk output file at that
point. -/
inductive RunOutcome where
  | ok : File → RunOutcome
  | fatal : File → RunOutcome
  | panicked : File → RunOutcome
deriving DecidableEq

/-- Discriminator for `RunOutcome.panicked`. -/
def RunOutcome.isPanicked : RunOutcome → Bool
  | RunOutcome.panicked _ => true
  | _ => false

/-- The external world of the run: glob results, file reads, the two
decompression library functions, and the I/O-failure oracles for the
error-discarding write and truncate calls. -/
structure Env where
  glob : String → List String
  read : String → Option (List Nat)
  dlz : List Nat → Except String (List Nat)
  dgz : List Nat → Except String (List Nat)
  wfail : Nat → Bool
  tfail : Bool

/-- `resolveBlockPath` (src/main.go lines 165-175): glob for
`<backupPath>/blocks/**/**/<checksum>.blk`, error when there is no match,
otherwise the first match. -/
def resolveBlockPath (env : Env) (backupPath checksum : String) :
    Except String String :=
  match env.glob (backupPath ++ "/blocks/**/**/" ++ checksum ++ ".blk") with
  | [] => Except.error ("could not find block " ++ checksum)
  | m :: _ => Except.ok m

/-- The compression dispatch inside the block loop (src/main.go lines
312-328): `lz4` and `gzip` are decoded; any other method tag falls through
both branches, the stale `err` from `os.ReadFile` is still `nil`, and the
compressed payload is passed on unchanged. -/
def decompressDispatch (env : Env) (comp : String) (data : List Nat) :
    Except String (List Nat) :=
  if comp = "lz4" then env.dlz data
  else if comp = "gzip" then env.dgz data
  else Except.ok data

/-- Result of one step of the nested replay loops: either the run stops
(exit or panic) or it continues with the current file and write counter. -/
inductive StepRes where
  | stop : RunOutcome → StepRes
  | cont : File → Nat → StepRes
deriving DecidableEq

/-- The body of the inner block loop of `main` (src/main.go lines
292-330): the progress `Printf` slices `block.Checksum[0:20]` (a byte
slice, panicking when the checksum has fewer than 20 bytes), then the
block is resolved, read, decompressed per the backup's method, and
written at its offset.  Resolution, read and decode failures print and
`os.Exit(1)`; the write's own failure is invisible (see
`writeBlockToBuffer`).  `n` counts write attempts for the `wfail` oracle. -/
def processBlock (env : Env) (backupPath comp : String) (blk : Block)
    (f : File) (n : Nat) : StepRes :=
  if blk.Checksum.utf8ByteSize < 20 then StepRes.stop (RunOutcome.panicked f)
  else
    match resolveBlockPath env backupPath blk.Checksum with
    | Except.error _ => StepRes.stop (RunOutcome.fatal f)
    | Except.ok path =>
      match env.read path with
      | none => StepRes.stop (RunOutcome.fatal f)
      | some blockData =>
        match decompressDispatch env comp blockData with
        | Except.error _ => StepRes.stop (RunOutcome.fatal f)
        | Except.ok data =>
          StepRes.cont (writeBlockToBuffer data blk.Offset f (env.wfail n))
            (n + 1)

/-- The decompressed payload a block contributes when every step succeeds
(resolution, read, decode), and `none` when one of them fails. -/
def blockPayload (env : Env) (backupPath comp : String) (blk : Block) :
    Option (List Nat) :=
  match resolveBlockPath env backupPath blk.Checksum with
  | Except.error _ => none
  | Except.ok path =>
    match env.read path with
    | none => none
    | some blockData =>
      match decompressDispatch env comp blockData with
      | Except.error _ => none
      | Except.ok data => some data

/-- The inner `for i, block := range backup.Blocks` loop (src/main.go
lines 292-331). -/
def runBlocks (env : Env) (backupPath comp : String) :
    List Block → File → Nat → StepRes
  | [], f, n => StepRes.cont f n
  | blk :: bs, f, n =>
    match processBlock env backupPath comp blk f n with
    | StepRes.stop o => StepRes.stop o
    | StepRes.cont f2 n2 => runBlocks env backupPath comp bs f2 n2

/-- The outer `for i_backup, backup := range volumeBackup.Backups` loop
(src/main.go lines 290-332), kept as a `StepRes` so runs compose. -/
def runBackupsP (env : Env) (backupPath : String) :
    List Backup → File → Nat → StepRes
  | [], f, n => StepRes.cont f n
  | bk :: bks, f, n =>
    match runBlocks env backupPath bk.Compression bk.Blocks f n with
    | StepRes.stop o => StepRes.stop o
    | StepRes.cont f2 n2 => runBackupsP env backupPath bks f2 n2

/-- The full replay pass: both loops run to completion (`ok`) unless an
error path exited or a panic fired first. -/
def runBackups (env : Env) (backupPath : String) (backups : List Backup)
    (f : File) (n : Nat) : RunOutcome :=
  match runBackupsP env backupPath backups f n with
  | StepRes.stop o => o
  | StepRes.cont f2 _ => RunOutcome.ok f2

/-- The superblock sizing tail of `main` (src/main.go lines 333-341): a
failed superblock read prints and exits, leaving the assembled file
untouched; otherwise the file is truncated to
`int64(superblock.TotalBlocks * superblock.BlockSize)` (Go `int`
multiplication, hence `wrap64`), the `Truncate` error being discarded. -/
def sizerStep (tfail : Bool) (f : File) : RunOutcome :=
  match readSuperblock f with
  | Except.error _ => RunOutcome.fatal f
  | Except.ok sb =>
    RunOutcome.ok (truncateCall f (wrap64 (sb.TotalBlocks * sb.BlockSize)) tfail)

/-- `main`'s whole assembly-plus-sizing pipeline on a freshly created
(empty) output file (src/main.go lines 290-341). -/
def mainRun (env : Env) (backupPath : String) (backups : List Backup)
    (f : File) : RunOutcome :=
  match runBackupsP env backupPath backups f 0 with
  | StepRes.stop o => o
  | StepRes.cont f2 _ => sizerStep env.tfail f2

/-- Model of Go's `filepath.Base`: the last non-empty path component. -/
def filepathBase (p : String) : String :=
  let parts := (p.splitOn "/").filter fun s => s != ""
  parts.getLastD (if p = "" then "." else "/")

/-- Insertion of a backup into a list, ordering by
`Backups[i].Timestamp.Before(Backups[j].Timestamp)` (src/main.go lines
158-160). -/
def insertBackup (b : Backup) : List Backup → List Backup
  | [] => [b]
  | c :: cs =>
    if b.Timestamp < c.Timestamp then b :: c :: cs else c :: insertBackup b cs

/-- Model of the `sort.Slice` call in `readBackups` (src/main.go lines
158-160): some comparison sort with `less i j := Timestamp i < Timestamp j`.
Any conforming sort produces a `less`-sorted permutation; `sort.Slice`
guarantees nothing about the relative order of ties, and neither does
this model. -/
def sortBackups : List Backup → List Backup
  | [] => []
  | b :: bs => insertBackup b (sortBackups bs)

/-- The descriptor loop of `readBackups` (src/main.go lines 124-156): each
discovered `*.cfg` descriptor is opened, read, JSON-decoded, its
`CreatedTime` parsed as RFC 3339 and its `Size` parsed as a decimal; the
first failure of any of those steps aborts the whole load.  Each list
entry is the abstracted outcome of that per-descriptor pipeline. -/
def collectBackups : List (Except String Backup) → Except String (List Backup)
  | [] => Except.ok []
  | Except.error e :: _ => Except.error e
  | Except.ok b :: rest =>
    match collectBackups rest with
    | Except.error e => Except.error e
    | Except.ok bs => Except.ok (b :: bs)

/-- `readBackups` (src/main.go lines 111-163): glob `backups/*.cfg`
(yielding `cfgs`, possibly empty), parse every descriptor, then sort the
collected backups by creation time. -/
def readBackups (path : String) (cfgs : List (Except String Backup)) :
    Except String VolumeBackup :=
  match collectBackups cfgs with
  | Except.error e => Except.error e
  | Except.ok bs =>
    Except.ok
      { Name := filepathBase path
        BackupPath := path
        Backups := sortBackups bs }

/-- A block's eventual write (if any) stays clear of the byte region
`[O, O + L)`. -/
def regionUntouched (env : Env) (backupPath comp : String) (blk : Block)
    (O L : Nat) : Prop :=
  ∀ d, blockPayload env backupPath comp blk = some d →
    blk.Offset + d.length ≤ O ∨ O + L ≤ blk.Offset

/-! Concrete stores and catalogs used to evaluate the model on explicit
inputs.  The decoder stand-in `fun d => Except.ok d` is a legitimate
instantiation of the abstract lz4 decoder: the stores below simply hold
payloads whose decoded form equals the stored bytes. -/

/-- Store for the unrecognized-compression run: one block, payload
`[9, 8, 7]`, both real decoders rigged to fail so that any decode attempt
would be visible. -/
def envC1 : Env where
  glob p := if p = "vol/blocks/**/**/aaaaaaaaaaaaaaaaaaaa.blk" then ["pa"] else []
  read p := if p = "pa" then some [9, 8, 7] else none
  dlz _ := Except.error "lz4 failure"
  dgz _ := Except.error "gzip failure"
  wfail _ := false
  tfail := false

/-- A backup declaring the unrecognized compression method `zstd`. -/
def bkC1 : Backup :=
  { Identifier := "b.cfg", Timestamp := 0, Size := 3, Compression := "zstd"
    Blocks := [{ Offset := 0, Checksum := "aaaaaaaaaaaaaaaaaaaa" }] }

/-- Store with three content-addressed payloads `[7]`, `[9]`, `[5]`. -/
def envC2 : Env where
  glob p :=
    if p = "vol/blocks/**/**/aaaaaaaaaaaaaaaaaaaa.blk" then ["pa"]
    else if p = "vol/blocks/**/**/bbbbbbbbbbbbbbbbbbbb.blk" then ["pb"]
    else if p = "vol/blocks/**/**/cccccccccccccccccccc.blk" then ["pc"]
    else []
  read p :=
    if p = "pa" then some [7]
    else if p = "pb" then some [9]
    else if p = "pc" then some [5] else none
  dlz d := Except.ok d
  dgz _ := Except.error "gzip failure"
  wfail _ := false
  tfail := false

/-- Earliest backup: block at offset 0 with payload `[7]`. -/
def b1C2 : Backup :=
  { Identifier := "1.cfg", Timestamp := 1, Size := 1, Compression := "lz4"
    Blocks := [{ Offset := 0, Checksum := "aaaaaaaaaaaaaaaaaaaa" }] }

/-- Middle backup: block at offset 0 with payload `[9]`. -/
def b2C2 : Backup :=
  { Identifier := "2.cfg", Timestamp := 2, Size := 1, Compression := "lz4"
    Blocks := [{ Offset := 0, Checksum := "bbbbbbbbbbbbbbbbbbbb" }] }

/-- Latest backup: block at offset 0 with payload `[5]`. -/
def b3C2 : Backup :=
  { Identifier := "3.cfg", Timestamp := 3, Size := 1, Compression := "lz4"
    Blocks := [{ Offset := 0, Checksum := "cccccccccccccccccccc" }] }

/-- The single block of `b2C2`. -/
def blkC2 : Block := { Offset := 0, Checksum := "bbbbbbbbbbbbbbbbbbbb" }

/-- Two parsed backups with the same creation timestamp. -/
def bAC3 : Backup :=
  { Identifier := "a.cfg", Timestamp := 5, Size := 0, Compression := "lz4"
    Blocks := [] }

/-- Second backup sharing `bAC3`'s timestamp. -/
def bBC3 : Backup :=
  { Identifier := "b.cfg", Timestamp := 5, Size := 1, Compression := "lz4"
    Blocks := [] }

/-- Two parsed backups with distinct timestamps, discovered out of order. -/
def bWC3 : Backup :=
  { Identifier := "w.cfg", Timestamp := 9, Size := 0, Compression := "lz4"
    Blocks := [] }

/-- The earlier of the two distinct-timestamp backups. -/
def bVC3 : Backup :=
  { Identifier := "v.cfg", Timestamp := 3, Size := 0, Compression := "lz4"
    Blocks := [] }

/-- Store for the ignored-write-failure run: the first write succeeds,
every later write and the final truncate fail at the OS level. -/
def envC4 : Env where
  glob p :=
    if p = "vol/blocks/**/**/aaaaaaaaaaaaaaaaaaaa.blk" then ["pa"]
    else if p = "vol/blocks/**/**/bbbbbbbbbbbbbbbbbbbb.blk" then ["pb"]
    else []
  read p :=
    if p = "pa" then some [7]
    else if p = "pb" then some [5] else none
  dlz d := Except.ok d
  dgz _ := Except.error "gzip failure"
  wfail n := n != 0
  tfail := true

/-- One backup whose second block's write will fail. -/
def bkC4 : Backup :=
  { Identifier := "c.cfg", Timestamp := 0, Size := 0, Compression := "lz4"
    Blocks := [{ Offset := 0, Checksum := "aaaaaaaaaaaaaaaaaaaa" },
               { Offset := 0, Checksum := "bbbbbbbbbbbbbbbbbbbb" }] }

/-- The second block of `bkC4`, whose payload `[5]` is silently dropped. -/
def blkC4 : Block := { Offset := 0, Checksum := "bbbbbbbbbbbbbbbbbbbb" }

/-- A 1052-byte file whose superblock fields hold block count 100 (bytes
1028-1031) and log2 exponent 2 (bytes 1048-1051), everything else zero. -/
def craftedSB : File := ((List.replicate 1052 0).set 1028 100).set 1048 2

/-- Empty store: every block resolution fails. -/
def envC9 : Env where
  glob _ := []
  read _ := none
  dlz d := Except.ok d
  dgz _ := Except.error "gzip failure"
  wfail _ := false
  tfail := false

/-- A backup whose first block has a 20-byte checksum that is absent from
the store, and whose second block's checksum is shorter than 20 bytes. -/
def bkC9 : Backup :=
  { Identifier := "p.cfg", Timestamp := 0, Size := 0, Compression := "lz4"
    Blocks := [{ Offset := 0, Checksum := "dddddddddddddddddddd" },
               { Offset := 0, Checksum := "ab" }] }

/-- A backup record with no blocks, used as the base of the panic witness. -/
def bkC9w : Backup :=
  { Identifier := "q.cfg", Timestamp := 0, Size := 0, Compression := "lz4"
    Blocks := [] }

/-- A block with a 2-byte checksum. -/
def blkC9w : Block := { Offset := 3, Checksum := "ab" }

/-! Helper lemmas. -/

lemma getD_range_map (g : Nat → Nat) (n i : Nat) :
    ((List.range n).map g).getD i 0 = if i < n then g i else 0 := by
  rcases Nat.lt_or_ge i n with h | h
  · rw [List.getD_eq_getElem?_getD, List.getElem?_map, List.getElem?_range h]
    simp [h]
  · have hlen : ((List.range n).map g).length ≤ i := by
      simpa using h
    rw [List.getD_eq_default _ _ hlen, if_neg (Nat.not_lt.mpr h)]

lemma overwrite_length (f : File) (off : Nat) (data : List Nat) :
    (overwrite f off data).length = max f.length (off + data.length) := by
  simp [overwrite]

lemma overwrite_getD_in (f : File) (off : Nat) (data : List Nat) (i : Nat)
    (h1 : off ≤ i) (h2 : i < off + data.length) :
    (overwrite f off data).getD i 0 = data.getD (i - off) 0 := by
  have hi : i < max f.length (off + data.length) :=
    lt_of_lt_of_le h2 (le_max_right _ _)
  rw [overwrite, getD_range_map]
  simp [hi, h1, h2]

lemma overwrite_getD_out (f : File) (off : Nat) (data : List Nat) (i : Nat)
    (h : i < off ∨ off + data.length ≤ i) :
    (overwrite f off data).getD i 0 = f.getD i 0 := by
  rw [overwrite, getD_range_map]
  by_cases hi : i < max f.length (off + data.length)
  · have hcond : ¬ (off ≤ i ∧ i < off + data.length) := by omega
    simp [hi, hcond]
  · have hlen : f.length ≤ i := by
      have := Nat.le_of_not_lt hi
      have := le_max_left f.length (off + data.length)
      omega
    rw [if_neg hi, List.getD_eq_default _ _ hlen]

lemma writeBlockToBuffer_getD_out (data : List Nat) (off : Nat) (f : File)
    (w : Bool) (i : Nat) (h : i < off ∨ off + data.length ≤ i) :
    (writeBlockToBuffer data off f w).getD i 0 = f.getD i 0 := by
  cases w with
  | true => rw [writeBlockToBuffer, if_pos rfl]
  | false =>
    rw [writeBlockToBuffer, if_neg (by simp)]
    exact overwrite_getD_out f off data i h

lemma processBlock_cont {env : Env} {bp comp : String} {blk : Block}
    {f f2 : File} {n n2 : Nat}
    (h : processBlock env bp comp blk f n = StepRes.cont f2 n2) :
    ∃ d, blockPayload env bp comp blk = some d ∧
      f2 = writeBlockToBuffer d blk.Offset f (env.wfail n) ∧ n2 = n + 1 := by
  unfold processBlock at h
  by_cases hlen : blk.Checksum.utf8ByteSize < 20
  · rw [if_pos hlen] at h
    exact absurd h (by simp)
  · rw [if_neg hlen] at h
    cases h1 : resolveBlockPath env bp blk.Checksum with
    | error e => simp only [h1] at h; exact StepRes.noConfusion h
    | ok path =>
      simp only [h1] at h
      cases h2 : env.read path with
      | none => simp only [h2] at h; exact StepRes.noConfusion h
      | some bd =>
        simp only [h2] at h
        cases h3 : decompressDispatch env comp bd with
        | error e => simp only [h3] at h; exact StepRes.noConfusion h
        | ok d =>
          simp only [h3, StepRes.cont.injEq] at h
          refine ⟨d, ?_, h.1.symm, h.2.symm⟩
          unfold blockPayload
          rw [h1]
          simp only [h2, h3]

lemma processBlock_stop {env : Env} {bp comp : String} {blk : Block}
    {f : File} {n : Nat} {o : RunOutcome}
    (h : processBlock env bp comp blk f n = StepRes.stop o) :
    o = RunOutcome.panicked f ∨ o = RunOutcome.fatal f := by
  unfold processBlock at h
  by_cases hlen : blk.Checksum.utf8ByteSize < 20
  · rw [if_pos hlen] at h
    simp only [StepRes.stop.injEq] at h
    exact Or.inl h.symm
  · rw [if_neg hlen] at h
    cases h1 : resolveBlockPath env bp blk.Checksum with
    | error e =>
      simp only [h1, StepRes.stop.injEq] at h; exact Or.inr h.symm
    | ok path =>
      simp only [h1] at h
      cases h2 : env.read path with
      | none =>
        simp only [h2, StepRes.stop.injEq] at h; exact Or.inr h.symm
      | some bd =>
        simp only [h2] at h
        cases h3 : decompressDispatch env comp bd with
        | error e =>
          simp only [h3, StepRes.stop.injEq] at h; exact Or.inr h.symm
        | ok d => simp only [h3] at h; exact StepRes.noConfusion h

lemma runBlocks_stop_shape {env : Env} {bp comp : String} :
    ∀ {bs : List Block} {f : File} {n : Nat} {o : RunOutcome},
      runBlocks env bp comp bs f n = StepRes.stop o →
      ∃ g, o = RunOutcome.panicked g ∨ o = RunOutcome.fatal g := by
  intro bs
  induction bs with
  | nil => intro f n o h; exact absurd h (by simp [runBlocks])
  | cons blk bs ih =>
    intro f n o h
    rw [runBlocks] at h
    cases hp : processBlock env bp comp blk f n with
    | stop o2 =>
      simp only [hp, StepRes.stop.injEq] at h
      subst h
      exact ⟨f, processBlock_stop hp⟩
    | cont f2 n2 =>
      simp only [hp] at h
      exact ih h

lemma runBackupsP_stop_shape {env : Env} {bp : String} :
    ∀ {bks : List Backup} {f : File} {n : Nat} {o : RunOutcome},
      runBackupsP env bp bks f n = StepRes.stop o →
      ∃ g, o = RunOutcome.panicked g ∨ o = RunOutcome.fatal g := by
  intro bks
  induction bks with
  | nil => intro f n o h; exact absurd h (by simp [runBackupsP])
  | cons bk bks ih =>
    intro f n o h
    rw [runBackupsP] at h
    cases hb : runBlocks env bp bk.Compression bk.Blocks f n with
    | stop o2 =>
      simp only [hb, StepRes.stop.injEq] at h
      subst h
      exact runBlocks_stop_shape hb
    | cont f2 n2 =>
      simp only [hb] at h
      exact ih h

lemma runBlocks_append (env : Env) (bp comp : String) (bs1 bs2 : List Block) :
    ∀ (f : File) (n : Nat),
      runBlocks env bp comp (bs1 ++ bs2) f n =
        match runBlocks env bp comp bs1 f n with
        | StepRes.stop o => StepRes.stop o
        | StepRes.cont f2 n2 => runBlocks env bp comp bs2 f2 n2 := by
  induction bs1 with
  | nil => intro f n; rfl
  | cons blk bs ih =>
    intro f n
    rw [List.cons_append, runBlocks, runBlocks]
    cases processBlock env bp comp blk f n with
    | stop o => rfl
    | cont f2 n2 => exact ih f2 n2

lemma runBackupsP_append (env : Env) (bp : String) (l1 l2 : List Backup) :
    ∀ (f : File) (n : Nat),
      runBackupsP env bp (l1 ++ l2) f n =
        match runBackupsP env bp l1 f n with
        | StepRes.stop o => StepRes.stop o
        | StepRes.cont f2 n2 => runBackupsP env bp l2 f2 n2 := by
  induction l1 with
  | nil => intro f n; rfl
  | cons bk bks ih =>
    intro f n
    rw [List.cons_append, runBackupsP, runBackupsP]
    cases runBlocks env bp bk.Compression bk.Blocks f n with
    | stop o => rfl
    | cont f2 n2 => exact ih f2 n2

lemma runBlocks_region {env : Env} {bp comp : String} {O L : Nat} :
    ∀ {bs : List Block} {f f2 : File} {n n2 : Nat},
      runBlocks env bp comp bs f n = StepRes.cont f2 n2 →
      (∀ blk ∈ bs, regionUntouched env bp comp blk O L) →
      ∀ i, O ≤ i → i < O + L → f2.getD i 0 = f.getD i 0 := by
  intro bs
  induction bs with
  | nil =>
    intro f f2 n n2 h hreg i h1 h2
    simp only [runBlocks, StepRes.cont.injEq] at h
    rw [← h.1]
  | cons blk bs ih =>
    intro f f2 n n2 h hreg i h1 h2
    rw [runBlocks] at h
    cases hp : processBlock env bp comp blk f n with
    | stop o => simp only [hp] at h; exact StepRes.noConfusion h
    | cont f3 n3 =>
      simp only [hp] at h
      obtain ⟨d, hd, hf3, _⟩ := processBlock_cont hp
      have hdisj : blk.Offset + d.length ≤ O ∨ O + L ≤ blk.Offset :=
        hreg blk (List.mem_cons_self blk bs) d hd
      have hstep : f3.getD i 0 = f.getD i 0 := by
        rw [hf3]
        exact writeBlockToBuffer_getD_out d blk.Offset f (env.wfail n) i
          (by omega)
      have htail := ih h (fun b hb => hreg b (List.mem_cons_of_mem _ hb)) i h1 h2
      rw [htail, hstep]

lemma runBackupsP_region {env : Env} {bp : String} {O L : Nat} :
    ∀ {bks : List Backup} {f f2 : File} {n n2 : Nat},
      runBackupsP env bp bks f n = StepRes.cont f2 n2 →
      (∀ bk ∈ bks, ∀ blk ∈ bk.Blocks,
        regionUntouched env bp bk.Compression blk O L) →
      ∀ i, O ≤ i → i < O + L → f2.getD i 0 = f.getD i 0 := by
  intro bks
  induction bks with
  | nil =>
    intro f f2 n n2 h hreg i h1 h2
    simp only [runBackupsP, StepRes.cont.injEq] at h
    rw [← h.1]
  | cons bk bks ih =>
    intro f f2 n n2 h hreg i h1 h2
    rw [runBackupsP] at h
    cases hb : runBlocks env bp bk.Compression bk.Blocks f n with
    | stop o => simp only [hb] at h; exact StepRes.noConfusion h
    | cont f3 n3 =>
      simp only [hb] at h
      have hstep :=
        runBlocks_region hb (hreg bk (List.mem_cons_self bk bks)) i h1 h2
      have htail :=
        ih h (fun b hbmem => hreg b (List.mem_cons_of_mem _ hbmem)) i h1 h2
      rw [htail, hstep]

lemma mem_insertBackup {x b : Backup} :
    ∀ {l : List Backup}, x ∈ insertBackup b l → x = b ∨ x ∈ l := by
  intro l
  induction l with
  | nil =>
    intro h
    simp only [insertBackup] at h
    exact Or.inl (List.mem_singleton.mp h)
  | cons c cs ih =>
    intro h
    rw [insertBackup] at h
    by_cases hb : b.Timestamp < c.Timestamp
    · rw [if_pos hb] at h
      rcases List.mem_cons.mp h with rfl | h2
      · exact Or.inl rfl
      · exact Or.inr h2
    · rw [if_neg hb] at h
      rcases List.mem_cons.mp h with rfl | h2
      · exact Or.inr (List.mem_cons_self _ _)
      · rcases ih h2 with h3 | h3
        · exact Or.inl h3
        · exact Or.inr (List.mem_cons_of_mem _ h3)

lemma pairwise_insertBackup {b : Backup} :
    ∀ {l : List Backup},
      List.Pairwise (fun x y : Backup => x.Timestamp ≤ y.Timestamp) l →
      List.Pairwise (fun x y : Backup => x.Timestamp ≤ y.Timestamp)
        (insertBackup b l) := by
  intro l
  induction l with
  | nil => intro _; simp [insertBackup]
  | cons c cs ih =>
    intro h
    rw [List.pairwise_cons] at h
    obtain ⟨hc, hcs⟩ := h
    rw [insertBackup]
    by_cases hb : b.Timestamp < c.Timestamp
    · rw [if_pos hb]
      refine List.Pairwise.cons ?_ (List.Pairwise.cons hc hcs)
      intro y hy
      rcases List.mem_cons.mp hy with rfl | hy2
      · exact Nat.le_of_lt hb
      · exact le_trans (Nat.le_of_lt hb) (hc y hy2)
    · rw [if_neg hb]
      refine List.Pairwise.cons ?_ (ih hcs)
      intro y hy
      rcases mem_insertBackup hy with rfl | hy2
      · exact Nat.le_of_not_lt hb
      · exact hc y hy2

lemma sortBackups_pairwise (l : List Backup) :
    List.Pairwise (fun x y : Backup => x.Timestamp ≤ y.Timestamp)
      (sortBackups l) := by
  induction l with
  | nil => simp [sortBackups]
  | cons b bs ih => rw [sortBackups]; exact pairwise_insertBackup ih

lemma wrap64_eq_self (x : Int) (h0 : -(2 ^ 63) ≤ x) (h1 : x < 2 ^ 63) :
    wrap64 x = x := by
  have e1 : (2 : Int) ^ 63 = 9223372036854775808 := by norm_num
  have e2 : (2 : Int) ^ 64 = 18446744073709551616 := by norm_num
  rw [e1] at h0 h1
  rw [wrap64, e1, e2, Int.emod_eq_of_lt (by omega) (by omega)]
  omega

lemma resizeFile_length (f : File) (n : Nat) : (resizeFile f n).length = n := by
  simp only [resizeFile, List.length_append, List.length_take,
    List.length_replicate]
  omega

lemma truncateCall_ofNat (f : File) (m : Nat) :
    truncateCall f (Int.ofNat m) false = resizeFile f m := by
  unfold truncateCall
  rw [if_neg Bool.false_ne_true,
    if_neg (show ¬ Int.ofNat m < 0 from not_lt.mpr (Int.ofNat_nonneg m))]
  rfl

/-! Claim theorems. -/

/-- C1: the claim says a compression-method tag outside {lz4, gzip} makes
the decompression step report an explicit error instead of writing the
payload through unchanged.  The code does the opposite: the dispatch at
src/main.go lines 312-328 falls through both branches for any other tag
and the stale `nil` error lets the compressed payload be written to the
image verbatim.  First conjunct: for the unrecognized tag "zstd" the
dispatch returns the payload unchanged with no error, whatever the
decoders are; remaining conjuncts: an end-to-end run over a one-block
"zstd" backup completes with exit status 0 and the raw payload `[9, 8, 7]`
in the image. -/
theorem c1_unrecognized_method_passthrough :
    (∀ (env : Env) (data : List Nat),
      decompressDispatch env "zstd" data = Except.ok data)
    ∧ bkC1.Compression = "zstd"
    ∧ runBackups envC1 "vol" [bkC1] [] 0 = RunOutcome.ok [9, 8, 7] := by
  refine ⟨fun env data => rfl, rfl, by decide⟩

/-- C3 counterexample: two descriptors with equal creation timestamps load
into a catalog whose `Backups` sequence is NOT strictly ascending by
timestamp, refuting the claim as stated. -/
theorem c3_equal_timestamps_counterexample :
    readBackups "p" [Except.ok bAC3, Except.ok bBC3] =
      Except.ok
        { Name := filepathBase "p", BackupPath := "p", Backups := [bBC3, bAC3] }
    ∧ bAC3.Timestamp = bBC3.Timestamp
    ∧ decide (List.Pairwise (fun x y : Backup => x.Timestamp < y.Timestamp)
        [bBC3, bAC3]) = false := by
  refine ⟨rfl, rfl, by decide⟩

/-- C3 (amended): for every set of backup descriptors, in whatever order
the filesystem enumeration discovers them, a successful `readBackups`
yields a `Backups` sequence sorted non-decreasing by creation timestamp,
and strictly ascending whenever no two loaded backups share a creation
timestamp. -/
theorem c3_catalog_sorted (path : String) (cfgs : List (Except String Backup))
    (vb : VolumeBackup) (h : readBackups path cfgs = Except.ok vb) :
    List.Pairwise (fun x y : Backup => x.Timestamp ≤ y.Timestamp) vb.Backups
    ∧ (List.Pairwise (fun x y : Backup => x.Timestamp ≠ y.Timestamp)
        vb.Backups →
      List.Pairwise (fun x y : Backup => x.Timestamp < y.Timestamp)
        vb.Backups) := by
  unfold readBackups at h
  cases hc : collectBackups cfgs with
  | error e => rw [hc] at h; exact Except.noConfusion h
  | ok bs =>
    simp only [hc, Except.ok.injEq] at h
    subst h
    constructor
    · exact sortBackups_pairwise bs
    · intro hne
      exact ((sortBackups_pairwise bs).and hne).imp fun hab =>
        lt_of_le_of_ne hab.1 hab.2

/-- C3 witness: two descriptors with distinct timestamps, discovered in
descending order, load into a strictly ascending catalog. -/
theorem c3_catalog_sorted_witness :
    readBackups "q" [Except.ok bWC3, Except.ok bVC3] =
      Except.ok
        { Name := filepathBase "q", BackupPath := "q", Backups := [bVC3, bWC3] }
    ∧ List.Pairwise (fun x y : Backup => x.Timestamp ≤ y.Timestamp)
        [bVC3, bWC3]
    ∧ List.Pairwise (fun x y : Backup => x.Timestamp < y.Timestamp)
        [bVC3, bWC3] := by
  have h : readBackups "q" [Except.ok bWC3, Except.ok bVC3] =
      Except.ok
        { Name := filepathBase "q", BackupPath := "q",
          Backups := [bVC3, bWC3] } := rfl
  have h2 := c3_catalog_sorted "q" [Except.ok bWC3, Except.ok bVC3]
    { Name := filepathBase "q", BackupPath := "q", Backups := [bVC3, bWC3] } h
  exact ⟨h, h2.1, h2.2 (by decide)⟩

/-- C6: when the post-assembly superblock read fails, the run exits with a
fatal error and the sizer leaves the assembled file exactly as it was —
no truncation happens on the error path (src/main.go lines 333-337 exit
before the `Truncate` at line 341). -/
theorem c6_sizer_failure_no_truncate (tfail : Bool) (f : File) (e : String)
    (h : readSuperblock f = Except.error e) :
    sizerStep tfail f = RunOutcome.fatal f := by
  unfold sizerStep
  simp only [h]

/-- C6 witness: on an empty assembled file the superblock read fails and
the sizer reports fatal with the file untouched. -/
theorem c6_sizer_failure_no_truncate_witness :
    readSuperblock [] = Except.error "unexpected EOF"
    ∧ sizerStep true [] = RunOutcome.fatal [] :=
  ⟨rfl, c6_sizer_failure_no_truncate true [] "unexpected EOF" rfl⟩

/-- C7: a successful positional write of a buffer of length L at offset O
sets exactly the bytes in `[O, O + L)` to the buffer's contents and leaves
every byte outside that range with its previous value (bytes past the old
end-of-file read as 0 before and after). -/
theorem c7_write_frame_effect (blockData : List Nat) (offset : Nat)
    (f : File) :
    (∀ i, offset ≤ i → i < offset + blockData.length →
      (writeBlockToBuffer blockData offset f false).getD i 0
        = blockData.getD (i - offset) 0)
    ∧ (∀ i, i < offset ∨ offset + blockData.length ≤ i →
      (writeBlockToBuffer blockData offset f false).getD i 0 = f.getD i 0) := by
  constructor
  · intro i h1 h2
    rw [writeBlockToBuffer, if_neg (by simp)]
    exact overwrite_getD_in f offset blockData i h1 h2
  · intro i h
    exact writeBlockToBuffer_getD_out blockData offset f false i h

/-- C7 witness: writing `[5, 6]` at offset 1 into `[9, 9, 9, 9]` puts 6 at
index 2 and leaves index 3 at its old value 9. -/
theorem c7_write_frame_effect_witness :
    (writeBlockToBuffer [5, 6] 1 [9, 9, 9, 9] false).getD 2 0
      = ([5, 6] : List Nat).getD (2 - 1) 0
    ∧ (writeBlockToBuffer [5, 6] 1 [9, 9, 9, 9] false).getD 3 0
      = ([9, 9, 9, 9] : File).getD 3 0 :=
  ⟨(c7_write_frame_effect [5, 6] 1 [9, 9, 9, 9]).1 2 (by decide) (by decide),
   (c7_write_frame_effect [5, 6] 1 [9, 9, 9, 9]).2 3 (Or.inr (by decide))⟩

/-- C9 counterexample: a catalog that does contain a block with a
checksum shorter than 20 bytes, yet whose replay never panics — an
earlier block's resolution fails first and the run exits fatally, so the
claim's unconditional "the replay pass panics" is false as stated. -/
theorem c9_earlier_fatal_counterexample :
    runBackups envC9 "vol" [bkC9] [] 0 = RunOutcome.fatal []
    ∧ (bkC9.Blocks.any fun b => decide (b.Checksum.utf8ByteSize < 20)) = true
    ∧ (runBackups envC9 "vol" [bkC9] [] 0).isPanicked = false := by
  refine ⟨by decide, by decide, by decide⟩

/-- C9 (amended): whenever the replay actually reaches a block whose
checksum has fewer than 20 bytes (every earlier block having resolved,
read, decoded and moved on), the pass panics on the progress message's
`block.Checksum[0:20]` slice before the block is resolved: the outcome is
a panic carrying the file exactly as it was before this block, whatever
the store holds for it. -/
theorem c9_short_checksum_panics (env : Env) (bp : String)
    (pre post : List Backup) (bk : Backup) (bPre bPost : List Block)
    (blk : Block) (f0 f1 f2 : File) (n1 n2 : Nat)
    (hpre : runBackupsP env bp pre f0 0 = StepRes.cont f1 n1)
    (hbpre : runBlocks env bp bk.Compression bPre f1 n1 = StepRes.cont f2 n2)
    (hshort : blk.Checksum.utf8ByteSize < 20) :
    runBackups env bp
      (pre ++ { bk with Blocks := bPre ++ blk :: bPost } :: post) f0 0
      = RunOutcome.panicked f2 := by
  have hp : processBlock env bp bk.Compression blk f2 n2 =
      StepRes.stop (RunOutcome.panicked f2) := by
    unfold processBlock
    rw [if_pos hshort]
  have hx : runBlocks env bp bk.Compression (bPre ++ blk :: bPost) f1 n1 =
      StepRes.stop (RunOutcome.panicked f2) := by
    rw [runBlocks_append env bp bk.Compression bPre (blk :: bPost) f1 n1, hbpre]
    show runBlocks env bp bk.Compression (blk :: bPost) f2 n2 = _
    rw [runBlocks, hp]
  have h1 : runBackupsP env bp
      (pre ++ { bk with Blocks := bPre ++ blk :: bPost } :: post) f0 0
      = StepRes.stop (RunOutcome.panicked f2) := by
    rw [runBackupsP_append env bp pre _ f0 0, hpre]
    show runBackupsP env bp
      ({ bk with Blocks := bPre ++ blk :: bPost } :: post) f1 n1 = _
    rw [runBackupsP]
    rw [show ({ bk with Blocks := bPre ++ blk :: bPost } : Backup).Blocks
        = bPre ++ blk :: bPost from rfl]
    rw [show ({ bk with Blocks := bPre ++ blk :: bPost } : Backup).Compression
        = bk.Compression from rfl]
    rw [hx]
  unfold runBackups
  rw [h1]

/-- C9 witness: a one-backup catalog whose only block has the 2-byte
checksum "ab" panics immediately, with the output file still empty. -/
theorem c9_short_checksum_panics_witness :
    runBackups envC9 "vol"
      (([] : List Backup) ++
        { bkC9w with Blocks := ([] : List Block) ++ blkC9w :: [] } :: [])
      [] 0 = RunOutcome.panicked [] :=
  c9_short_checksum_panics envC9 "vol" [] [] bkC9w [] [] blkC9w [] [] [] 0 0
    rfl rfl (by decide)

/-- C10: a volume whose `backups` directory matches no `*.cfg` descriptor
loads successfully into a catalog with an empty `Backups` sequence — an
empty catalog is not a not-found failure (src/main.go lines 111-163 never
check for emptiness). -/
theorem c10_empty_catalog_ok (path : String) :
    readBackups path [] =
      Except.ok
        { Name := filepathBase path, BackupPath := path, Backups := [] } :=
  rfl

set_option maxRecDepth 8000 in
/-- C5: for every file from which the superblock record parses (seven
little-endian 32-bit fields at byte offset 1024), the sizer computes
`blockSize = 1024 <<< log2Field` and `totalSize = blockCount * blockSize`
and truncates the output to exactly `totalSize` bytes — stated here for
every `totalSize` that fits Go's signed 64-bit `int`, in which range the
code's machine arithmetic agrees with these formulas; and concretely, for
block count 100 and log2 exponent 2 the final file is exactly 409600
bytes. -/
theorem c5_superblock_sizing :
    (∀ (f : File) (bc lg : Nat), 1052 ≤ f.length →
      le32at f 1028 = bc → le32at f 1048 = lg →
      bc * (1024 <<< lg) < 2 ^ 63 →
      sizerStep false f = RunOutcome.ok (resizeFile f (bc * (1024 <<< lg)))
      ∧ (resizeFile f (bc * (1024 <<< lg))).length = bc * (1024 <<< lg))
    ∧ sizerStep false craftedSB = RunOutcome.ok (resizeFile craftedSB 409600)
    ∧ (resizeFile craftedSB 409600).length = 409600 := by
  have huniv : ∀ (f : File) (bc lg : Nat), 1052 ≤ f.length →
      le32at f 1028 = bc → le32at f 1048 = lg →
      bc * (1024 <<< lg) < 2 ^ 63 →
      sizerStep false f = RunOutcome.ok (resizeFile f (bc * (1024 <<< lg)))
      ∧ (resizeFile f (bc * (1024 <<< lg))).length = bc * (1024 <<< lg) := by
    intro f bc lg hlen h28 h48 hbound
    refine ⟨?_, resizeFile_length _ _⟩
    have hraw : parseSuperblockRaw f = Except.ok
        { SInodesCount := le32at f 1024
          SBlocksCount := bc
          SRBlocksCount := le32at f 1032
          SFreeBlocksCount := le32at f 1036
          SFreeInodesCount := le32at f 1040
          SFirstDataBlock := le32at f 1044
          SLogBlockSize := lg } := by
      unfold parseSuperblockRaw
      rw [if_neg (by omega), h28, h48]
    have hsb : readSuperblock f = Except.ok
        { TotalBlocks := Int.ofNat bc
          BlockSize := wrap64 (1024 * 2 ^ lg) } := by
      unfold readSuperblock
      simp only [hraw]
    have hshift : (1024 : Nat) <<< lg = 1024 * 2 ^ lg := Nat.shiftLeft_eq 1024 lg
    rw [hshift] at hbound ⊢
    have key : wrap64 (Int.ofNat bc * wrap64 ((1024 : Int) * 2 ^ lg))
        = Int.ofNat (bc * (1024 * 2 ^ lg)) := by
      rcases Nat.eq_zero_or_pos bc with hbc | hbc
      · rw [hbc, show Int.ofNat 0 = (0 : Int) from rfl, zero_mul,
          Nat.zero_mul]
        decide
      · have hB : (1024 : Nat) * 2 ^ lg < 2 ^ 63 := by
          have h1 : 1024 * 2 ^ lg ≤ bc * (1024 * 2 ^ lg) :=
            Nat.le_mul_of_pos_left _ hbc
          omega
        have hnn : (0 : Int) ≤ (1024 : Int) * 2 ^ lg := by positivity
        have hw1 : wrap64 ((1024 : Int) * 2 ^ lg) = (1024 : Int) * 2 ^ lg := by
          apply wrap64_eq_self
          · exact le_trans (by norm_num) hnn
          · exact_mod_cast hB
        have hcast : Int.ofNat bc * ((1024 : Int) * 2 ^ lg)
            = Int.ofNat (bc * (1024 * 2 ^ lg)) := by
          rw [Int.ofNat_eq_natCast, Int.ofNat_eq_natCast]
          push_cast
          ring
        rw [hw1, hcast]
        apply wrap64_eq_self
        · exact le_trans (by norm_num) (Int.ofNat_nonneg _)
        · rw [Int.ofNat_eq_natCast]
          exact_mod_cast hbound
    unfold sizerStep
    simp only [hsb]
    rw [key, truncateCall_ofNat]
  refine ⟨huniv, ?_, resizeFile_length _ _⟩
  have h1052 : (1052 : Nat) ≤ craftedSB.length := by decide
  have h28 : le32at craftedSB 1028 = 100 := by decide
  have h48 : le32at craftedSB 1048 = 2 := by decide
  have hbound : 100 * (1024 <<< 2) < 2 ^ 63 := by decide
  have hc := (huniv craftedSB 100 2 h1052 h28 h48 hbound).1
  have heq : 100 * (1024 <<< 2) = 409600 := by decide
  rw [heq] at hc
  exact hc

set_option maxRecDepth 8000 in
/-- C5 witness: the crafted superblock file satisfies every hypothesis of
the universal part, and the sizer truncates it to
`100 * (1024 <<< 2) = 409600` bytes. -/
theorem c5_superblock_sizing_witness :
    (1052 : Nat) ≤ craftedSB.length
    ∧ sizerStep false craftedSB
        = RunOutcome.ok (resizeFile craftedSB (100 * (1024 <<< 2))) :=
  ⟨by decide,
   (c5_superblock_sizing.1 craftedSB 100 2 (by decide) (by decide) (by decide)
      (by decide)).1⟩

set_option maxRecDepth 8000 in
/-- C4: the claim says every seek, write or truncate failure on the output
image is fatal.  The code drops those errors: `writeBlockToBuffer`
(src/main.go lines 177-180) ignores the results of `Seek` and `Write`,
and the `Truncate` at line 341 is unchecked.  Here the second block's
write fails, yet the replay finishes with outcome `ok`: the image is just
the first block's payload and the second block's payload `[5]` — resolved,
read and decoded successfully — is silently missing (byte 0 is 7, not 5).
A failed `Truncate` likewise leaves the file as it was while the sizer
still reports success: on `craftedSB` the run ends `ok` with the file
still 1052 bytes long instead of the computed 409600. -/
theorem c4_write_truncate_errors_ignored :
    runBackups envC4 "vol" [bkC4] [] 0 =
      RunOutcome.ok (writeBlockToBuffer [7] 0 [] false)
    ∧ envC4.wfail 1 = true
    ∧ blockPayload envC4 "vol" "lz4" blkC4 = some [5]
    ∧ decide ((writeBlockToBuffer [7] 0 [] false).getD 0 0 = 5) = false
    ∧ (∀ (f : File) (n : Int), truncateCall f n true = f)
    ∧ sizerStep true craftedSB = RunOutcome.ok craftedSB := by
  refine ⟨by decide, rfl, by decide, by decide, fun f n => rfl, ?_⟩
  have h : readSuperblock craftedSB = Except.ok
      { TotalBlocks := Int.ofNat 100,
        BlockSize := wrap64 (1024 * 2 ^ 2) } := rfl
  unfold sizerStep
  simp only [h]
  rfl

/-- C2 counterexample: with three backups B1 (t=1), B2 (t=2), B3 (t=3)
all carrying a block at offset 0, the pair (B1, B2) satisfies the claim's
hypotheses — B1 strictly earlier, both with a block at offset 0 — yet
after the full replay the image byte at offset 0 is B3's content 5, not
B2's decompressed content 9, so the claim as stated is false. -/
theorem c2_overlay_counterexample :
    runBackups envC2 "vol" [b1C2, b2C2, b3C2] [] 0 = RunOutcome.ok [5]
    ∧ b1C2.Timestamp < b2C2.Timestamp
    ∧ blkC2 ∈ b2C2.Blocks
    ∧ blkC2.Offset = 0
    ∧ ({ Offset := 0, Checksum := "aaaaaaaaaaaaaaaaaaaa" } : Block)
        ∈ b1C2.Blocks
    ∧ blockPayload envC2 "vol" b2C2.Compression blkC2 = some [9]
    ∧ decide (([5] : File).getD 0 0 = ([9] : List Nat).getD 0 0) = false := by
  refine ⟨by decide, by decide, by decide, rfl, by decide, by decide,
    by decide⟩

/-- C2 (amended): last-write-wins holds for the last write touching the
range.  If B1 (strictly earlier, with a block at the same offset) is
replayed before B2, the replay reaches B2's block at offset O, that block
resolves, reads and decodes to content `d` and its write succeeds, and no
block processed after it — neither a later-declared block of B2 nor any
block of a later backup — overlaps `[O, O + |d|)`, then after the full
replay completes the image bytes at `[O, O + |d|)` equal `d`, B2's
decompressed content, not B1's. -/
theorem c2_last_write_wins (env : Env) (bp : String)
    (pre post : List Backup) (b1 b2 : Backup) (bPre bPost : List Block)
    (blk : Block) (d : List Nat) (f0 f1 f2 fF : File) (n1 n2 : Nat)
    (hb1 : b1 ∈ pre)
    (hts : b1.Timestamp < b2.Timestamp)
    (hb1blk : ∃ blk1 ∈ b1.Blocks, blk1.Offset = blk.Offset)
    (hpre : runBackupsP env bp pre f0 0 = StepRes.cont f1 n1)
    (hbpre : runBlocks env bp b2.Compression bPre f1 n1 = StepRes.cont f2 n2)
    (hlen : 20 ≤ blk.Checksum.utf8ByteSize)
    (hpay : blockPayload env bp b2.Compression blk = some d)
    (hw : env.wfail n2 = false)
    (hbpost : ∀ b ∈ bPost,
      regionUntouched env bp b2.Compression b blk.Offset d.length)
    (hpost : ∀ bk ∈ post, ∀ b ∈ bk.Blocks,
      regionUntouched env bp bk.Compression b blk.Offset d.length)
    (hrun : runBackups env bp
      (pre ++ { b2 with Blocks := bPre ++ blk :: bPost } :: post) f0 0
      = RunOutcome.ok fF) :
    ∀ i, i < d.length → fF.getD (blk.Offset + i) 0 = d.getD i 0 := by
  have hp : processBlock env bp b2.Compression blk f2 n2
      = StepRes.cont (overwrite f2 blk.Offset d) (n2 + 1) := by
    unfold processBlock
    rw [if_neg (by omega)]
    unfold blockPayload at hpay
    cases h1 : resolveBlockPath env bp blk.Checksum with
    | error e => simp only [h1] at hpay; exact Option.noConfusion hpay
    | ok path =>
      simp only [h1] at hpay ⊢
      cases h2 : env.read path with
      | none => simp only [h2] at hpay; exact Option.noConfusion hpay
      | some bd =>
        simp only [h2] at hpay ⊢
        cases h3 : decompressDispatch env b2.Compression bd with
        | error e => simp only [h3] at hpay; exact Option.noConfusion hpay
        | ok dd =>
          simp only [h3, Option.some.injEq] at hpay ⊢
          subst hpay
          rw [hw, writeBlockToBuffer, if_neg Bool.false_ne_true]
  have hf3 : runBlocks env bp b2.Compression (bPre ++ blk :: bPost) f1 n1
      = runBlocks env bp b2.Compression bPost (overwrite f2 blk.Offset d)
          (n2 + 1) := by
    rw [runBlocks_append env bp b2.Compression bPre (blk :: bPost) f1 n1,
      hbpre]
    show runBlocks env bp b2.Compression (blk :: bPost) f2 n2 = _
    rw [runBlocks, hp]
  have htot : runBackupsP env bp
      (pre ++ { b2 with Blocks := bPre ++ blk :: bPost } :: post) f0 0
      = match runBlocks env bp b2.Compression bPost
            (overwrite f2 blk.Offset d) (n2 + 1) with
        | StepRes.stop o => StepRes.stop o
        | StepRes.cont f4 n4 => runBackupsP env bp post f4 n4 := by
    rw [runBackupsP_append env bp pre _ f0 0, hpre]
    show runBackupsP env bp
      ({ b2 with Blocks := bPre ++ blk :: bPost } :: post) f1 n1 = _
    rw [runBackupsP,
      show ({ b2 with Blocks := bPre ++ blk :: bPost } : Backup).Blocks
        = bPre ++ blk :: bPost from rfl,
      show ({ b2 with Blocks := bPre ++ blk :: bPost } : Backup).Compression
        = b2.Compression from rfl,
      hf3]
  unfold runBackups at hrun
  rw [htot] at hrun
  intro i hi
  cases hrest : runBlocks env bp b2.Compression bPost
      (overwrite f2 blk.Offset d) (n2 + 1) with
  | stop o =>
    simp only [hrest] at hrun
    obtain ⟨g, hg | hg⟩ := runBlocks_stop_shape hrest
    · rw [hg] at hrun; exact RunOutcome.noConfusion hrun
    · rw [hg] at hrun; exact RunOutcome.noConfusion hrun
  | cont f4 n4 =>
    simp only [hrest] at hrun
    cases hrest2 : runBackupsP env bp post f4 n4 with
    | stop o =>
      simp only [hrest2] at hrun
      obtain ⟨g, hg | hg⟩ := runBackupsP_stop_shape hrest2
      · rw [hg] at hrun; exact RunOutcome.noConfusion hrun
      · rw [hg] at hrun; exact RunOutcome.noConfusion hrun
    | cont f5 n5 =>
      simp only [hrest2, RunOutcome.ok.injEq] at hrun
      subst hrun
      have hpres1 : f4.getD (blk.Offset + i) 0
          = (overwrite f2 blk.Offset d).getD (blk.Offset + i) 0 :=
        runBlocks_region hrest hbpost (blk.Offset + i) (by omega) (by omega)
      have hpres2 : f5.getD (blk.Offset + i) 0 = f4.getD (blk.Offset + i) 0 :=
        runBackupsP_region hrest2 hpost (blk.Offset + i) (by omega) (by omega)
      rw [hpres2, hpres1,
        overwrite_getD_in f2 blk.Offset d (blk.Offset + i) (by omega)
          (by omega)]
      congr 1
      omega

/-- C2 witness: the two-backup catalog (B1 at t=1 with payload `[7]`, B2
at t=2 with payload `[9]`, both at offset 0) satisfies every hypothesis,
and after replay the image byte at offset 0 is B2's content 9. -/
theorem c2_last_write_wins_witness :
    runBackups envC2 "vol"
      ([b1C2] ++ { b2C2 with Blocks := ([] : List Block) ++ blkC2 :: [] }
        :: []) [] 0 = RunOutcome.ok [9]
    ∧ ([9] : File).getD (blkC2.Offset + 0) 0 = ([9] : List Nat).getD 0 0 := by
  have hrun : runBackups envC2 "vol"
      ([b1C2] ++ { b2C2 with Blocks := ([] : List Block) ++ blkC2 :: [] }
        :: []) [] 0 = RunOutcome.ok [9] := by decide
  refine ⟨hrun, ?_⟩
  exact c2_last_write_wins envC2 "vol" [b1C2] [] b1C2 b2C2 [] [] blkC2 [9]
    [] [7] [7] [9] 1 1 (by decide) (by decide)
    ⟨{ Offset := 0, Checksum := "aaaaaaaaaaaaaaaaaaaa" }, by decide, rfl⟩
    (by decide) rfl (by decide) (by decide) rfl (by simp) (by simp) hrun
    0 (by decide)
